import Mathlib

/-!
A shallow embedding of BoringSSL's NewHope key-exchange orchestration layer
(`src/crypto/newhope/newhope.c`) together with the external engine primitives
it calls, and theorems checking the design document's claims against it.

Machine integers are modelled as `Nat` with explicit reductions (`% 256` where
a C `uint8_t` truncation happens); byte values stored in wire buffers are
`Fin 256`, matching `uint8_t`. Randomness (`RAND_bytes`,
`newhope_poly_getnoise`) is modelled as reads from an explicit random tape
with a position counter, threaded through the handshake functions.

The engine primitives that `newhope.c` calls but whose implementations are
not part of the excerpted source (the NTT engine, the seed-expansion XOF, the
noise sampler's bit source, the reconciliation core, SHA-256) are either
modelled from the design document's words or, where the document fixes only
an interface, carried as a parameter (`NEWHOPE_Primitives`) so that the
orchestration theorems hold for every implementation of those primitives.
-/

/-- Ring dimension N = 1024 (`PARAM_N`). -/
abbrev PARAM_N : Nat := 1024

/-- Ring modulus Q = 12289 (`PARAM_Q`). -/
abbrev PARAM_Q : Nat := 12289

/-- Length of a serialized ring element: ceil(1024 * 14 / 8) = 1792 bytes. -/
abbrev NEWHOPE_POLY_LENGTH : Nat := 1792

/-- Length of the seed embedded in the offer message. -/
abbrev SEED_LENGTH : Nat := 32

/-- Offer message: packed ring element followed by the seed (1824 bytes). -/
abbrev NEWHOPE_OFFERMSG_LENGTH : Nat := NEWHOPE_POLY_LENGTH + SEED_LENGTH

/-- Accept message: packed ring element followed by the packed reconciliation
hint, N/4 bytes (2048 bytes total). -/
abbrev NEWHOPE_ACCEPTMSG_LENGTH : Nat := NEWHOPE_POLY_LENGTH + PARAM_N / 4

/-- Length of the raw reconciled secret. -/
abbrev NEWHOPE_KEY_LENGTH : Nat := 32

/-- Output length of the hash capability (SHA-256). -/
abbrev SHA256_DIGEST_LENGTH : Nat := 32

/-- A C `uint8_t` value. -/
abbrev Byte := Fin 256

/-- `NEWHOPE_POLY`: a ring element, `N` coefficients (C `uint16_t`, here `Nat`). -/
def NEWHOPE_POLY := Fin PARAM_N → Nat

/-- A 32-byte buffer (seed, raw key, digest, reconciliation randomness). -/
abbrev Bytes32 := Fin 32 → Byte

/-- Raw reconciled secret, `NEWHOPE_KEY_LENGTH` bytes. -/
abbrev NewhopeKey := Fin NEWHOPE_KEY_LENGTH → Byte

/-- Final session key, `SHA256_DIGEST_LENGTH` bytes. -/
abbrev Digest := Fin SHA256_DIGEST_LENGTH → Byte

/-- Offer wire message. -/
abbrev OfferMsg := Fin NEWHOPE_OFFERMSG_LENGTH → Byte

/-- Accept wire message. -/
abbrev AcceptMsg := Fin NEWHOPE_ACCEPTMSG_LENGTH → Byte

/-- Reads coefficient `n` of a polynomial; the C code only ever reads in
bounds, so the out-of-range value 0 is never produced in any use below. -/
def coeff (p : NEWHOPE_POLY) (n : Nat) : Nat :=
  if h : n < PARAM_N then p ⟨n, h⟩ else 0

/-- Reads byte `n` of a fixed-length buffer as a `Nat`; the C code only ever
reads in bounds, so the out-of-range value 0 is never produced below. -/
def msgByte {L : Nat} (m : Fin L → Byte) (n : Nat) : Nat :=
  if h : n < L then (m ⟨n, h⟩).val else 0

/-- Encodes reconciliation data from `c` into the returned byte buffer;
byte `i` is `c[4i] | c[4i+1] << 2 | c[4i+2] << 4 | c[4i+3] << 6`, truncated
to `uint8_t` (newhope.c, `encode_rec`). The output has `PARAM_N / 4` bytes. -/
def encode_rec (c : NEWHOPE_POLY) : Fin (PARAM_N / 4) → Byte := fun i =>
  ⟨(coeff c (4 * i.val) ||| (coeff c (4 * i.val + 1) <<< 2) |||
    (coeff c (4 * i.val + 2) <<< 4) ||| (coeff c (4 * i.val + 3) <<< 6)) % 256,
   Nat.mod_lt _ (by omega)⟩

/-- Decodes reconciliation data from `r` into a polynomial: coefficient
`4i+k` comes from bits `[2k, 2k+2)` of byte `i` (newhope.c, `decode_rec`). -/
def decode_rec (r : Fin (PARAM_N / 4) → Byte) : NEWHOPE_POLY := fun j =>
  if j.val % 4 = 0 then msgByte r (j.val / 4) &&& 0x03
  else if j.val % 4 = 1 then (msgByte r (j.val / 4) >>> 2) &&& 0x03
  else if j.val % 4 = 2 then (msgByte r (j.val / 4) >>> 4) &&& 0x03
  else msgByte r (j.val / 4) >>> 6

/-- Modelled from the spec: `newhope_poly_add` (not in the excerpted source)
adds two ring elements coefficient-wise modulo Q. -/
def newhope_poly_add (a b : NEWHOPE_POLY) : NEWHOPE_POLY := fun i =>
  (a i + b i) % PARAM_Q

/-- Modelled from the spec: `newhope_poly_pointwise` (not in the excerpted
source) multiplies two ring elements coefficient-wise modulo Q. -/
def newhope_poly_pointwise (a b : NEWHOPE_POLY) : NEWHOPE_POLY := fun i =>
  (a i * b i) % PARAM_Q

/-- The 56-bit concatenation of four consecutive 14-bit coefficients,
big-endian within the group, used by the serialization below. -/
def poly_group (p : NEWHOPE_POLY) (g : Nat) : Nat :=
  ((coeff p (4 * g) * 16384 + coeff p (4 * g + 1)) * 16384 +
    coeff p (4 * g + 2)) * 16384 + coeff p (4 * g + 3)

/-- Modelled from the spec: `newhope_poly_tobytes` (not in the excerpted
source) serializes a ring element, 14 bits per coefficient, packed tightly
big-endian within each 4-coefficient / 7-byte group, 1792 bytes total. -/
def newhope_poly_tobytes (p : NEWHOPE_POLY) : Fin NEWHOPE_POLY_LENGTH → Byte := fun b =>
  ⟨(if b.val % 7 = 0 then poly_group p (b.val / 7) / 281474976710656
    else if b.val % 7 = 1 then poly_group p (b.val / 7) / 1099511627776
    else if b.val % 7 = 2 then poly_group p (b.val / 7) / 4294967296
    else if b.val % 7 = 3 then poly_group p (b.val / 7) / 16777216
    else if b.val % 7 = 4 then poly_group p (b.val / 7) / 65536
    else if b.val % 7 = 5 then poly_group p (b.val / 7) / 256
    else poly_group p (b.val / 7)) % 256,
   Nat.mod_lt _ (by omega)⟩

/-- The 56-bit value recomposed from a 7-byte group of a serialized ring
element, used by the deserialization below. -/
def bytes_group (m : Fin NEWHOPE_POLY_LENGTH → Byte) (g : Nat) : Nat :=
  msgByte m (7 * g) * 281474976710656 + msgByte m (7 * g + 1) * 1099511627776 +
  msgByte m (7 * g + 2) * 4294967296 + msgByte m (7 * g + 3) * 16777216 +
  msgByte m (7 * g + 4) * 65536 + msgByte m (7 * g + 5) * 256 + msgByte m (7 * g + 6)

/-- Modelled from the spec: `NEWHOPE_POLY_frombytes` (not in the excerpted
source) deserializes a ring element, the inverse of `newhope_poly_tobytes`,
masking each extracted value to 14 bits. -/
def NEWHOPE_POLY_frombytes (m : Fin NEWHOPE_POLY_LENGTH → Byte) : NEWHOPE_POLY := fun j =>
  (if j.val % 4 = 0 then bytes_group m (j.val / 4) / 4398046511104
   else if j.val % 4 = 1 then bytes_group m (j.val / 4) / 268435456
   else if j.val % 4 = 2 then bytes_group m (j.val / 4) / 16384
   else bytes_group m (j.val / 4)) % 16384

/-- Modelled from the spec: the engine primitives called by the orchestration
layer whose implementations are not part of the excerpted source and for
which the design document fixes only an interface: the NTT engine
(`newhope_poly_ntt` / `newhope_poly_invntt`, whose root-of-unity table is
external), the seed expansion (`newhope_poly_uniform`, whose XOF is an
external capability), the reconciliation core (`newhope_helprec` /
`newhope_reconcile`, whose exact constants the document defers to the
published algorithm), and the hash capability (SHA-256). The orchestration
theorems below hold for every implementation of this interface. -/
structure NEWHOPE_Primitives where
  ntt : NEWHOPE_POLY → NEWHOPE_POLY
  invntt : NEWHOPE_POLY → NEWHOPE_POLY
  uniform : Bytes32 → NEWHOPE_POLY
  helprec : NEWHOPE_POLY → Bytes32 → NEWHOPE_POLY
  reconcile : NEWHOPE_POLY → NEWHOPE_POLY → NewhopeKey
  sha256 : NewhopeKey → Digest

/-- Modelled from the spec: the random-byte capability and the noise
sampler's entropy source (both external to the excerpted source), as an
explicit tape of noise polynomials and 32-byte blocks. -/
structure RandTape where
  noise : Nat → NEWHOPE_POLY
  bytes : Nat → Bytes32

/-- Position of a computation on the random tape: how many noise polynomials
and how many 32-byte blocks have been consumed so far. -/
structure RandPos where
  noiseUsed : Nat
  bytesUsed : Nat

/-- Modelled from the spec: `newhope_poly_getnoise` (not in the excerpted
source) draws the next noise polynomial from the tape; per the spec its
coefficients are reduced into `[0, Q)`. -/
def newhope_poly_getnoise (t : RandTape) (s : RandPos) : NEWHOPE_POLY × RandPos :=
  (fun i => t.noise s.noiseUsed i % PARAM_Q, ⟨s.noiseUsed + 1, s.bytesUsed⟩)

/-- Modelled from the spec: `RAND_bytes` (external capability) draws the
next 32-byte block from the tape. -/
def RAND_bytes (t : RandTape) (s : RandPos) : Bytes32 × RandPos :=
  (t.bytes s.bytesUsed, ⟨s.noiseUsed, s.bytesUsed + 1⟩)

/-- `NEWHOPE_accept_computation` (newhope.c lines 138-157): samples the
noise `ep`, computes `bp = a*sp + ep` and `v = invntt(pk*sp) + epp`, then
derives the hint by help-reconciliation on `v` and the raw key by
reconciliation on `v`. Returns `(k, bp, reconciliation, tape position)`. -/
def NEWHOPE_accept_computation (P : NEWHOPE_Primitives) (t : RandTape) (s : RandPos)
    (sp epp : NEWHOPE_POLY) (rand : Bytes32) (pk a : NEWHOPE_POLY) :
    NewhopeKey × NEWHOPE_POLY × NEWHOPE_POLY × RandPos :=
  let d := newhope_poly_getnoise t s
  let ep := P.ntt d.1
  let bp := newhope_poly_add (newhope_poly_pointwise a sp) ep
  let v := newhope_poly_add (P.invntt (newhope_poly_pointwise pk sp)) epp
  let c := P.helprec v rand
  (P.reconcile v c, bp, c, d.2)

/-- `NEWHOPE_finish_computation` (newhope.c lines 159-166): computes
`v = invntt(sk * bp)` and reconciles it with the received hint. -/
def NEWHOPE_finish_computation (P : NEWHOPE_Primitives)
    (sk bp reconciliation : NEWHOPE_POLY) : NewhopeKey :=
  P.reconcile (P.invntt (newhope_poly_pointwise sk bp)) reconciliation

/-- `NEWHOPE_offer` (newhope.c lines 49-69): samples and NTT-transforms the
secret, draws the seed, expands it to `a`, samples and transforms the error,
and writes `pk = a*sk + e` (packed) followed by the seed as the offer
message. Returns `(offer message, secret key, tape position)`. -/
def NEWHOPE_offer (P : NEWHOPE_Primitives) (t : RandTape) (s : RandPos) :
    OfferMsg × NEWHOPE_POLY × RandPos :=
  let d1 := newhope_poly_getnoise t s
  let sk := P.ntt d1.1
  let d2 := RAND_bytes t d1.2
  let seed := d2.1
  let a := P.uniform seed
  let d3 := newhope_poly_getnoise t d2.2
  let e := P.ntt d3.1
  let r := newhope_poly_pointwise sk a
  let pk := newhope_poly_add e r
  (fun b =>
    if h : b.val < NEWHOPE_POLY_LENGTH then newhope_poly_tobytes pk ⟨b.val, h⟩
    else seed ⟨b.val - NEWHOPE_POLY_LENGTH,
      by have hb : b.val < 1824 := b.isLt; show b.val - 1792 < 32; omega⟩,
   sk, d3.2)

/-- How `NEWHOPE_accept` reads the offer message (newhope.c lines 79-84):
the seed from offset `NEWHOPE_POLY_LENGTH` and the packed ring element from
offset 0. -/
def NEWHOPE_accept_parse (offermsg : OfferMsg) : Bytes32 × NEWHOPE_POLY :=
  (fun i => offermsg ⟨NEWHOPE_POLY_LENGTH + i.val,
     by have hi : i.val < 32 := i.isLt; show 1792 + i.val < 1824; omega⟩,
   NEWHOPE_POLY_frombytes (fun b => offermsg ⟨b.val,
     by have hb : b.val < 1792 := b.isLt; show b.val < 1824; omega⟩))

/-- The body of `NEWHOPE_accept` after the length check and before the hash
(newhope.c lines 79-102): parse the offer, sample `sp`, `epp` and the
reconciliation randomness, run `NEWHOPE_accept_computation`, and assemble
the accept message as packed `bp` followed by the packed hint. Returns
`(raw key, accept message, tape position)`. -/
def NEWHOPE_accept_core (P : NEWHOPE_Primitives) (t : RandTape) (s : RandPos)
    (offermsg : OfferMsg) : NewhopeKey × AcceptMsg × RandPos :=
  let pr := NEWHOPE_accept_parse offermsg
  let a := P.uniform pr.1
  let pk := pr.2
  let d1 := newhope_poly_getnoise t s
  let sp := P.ntt d1.1
  let d2 := newhope_poly_getnoise t d1.2
  let epp := d2.1
  let d3 := RAND_bytes t d2.2
  let ac := NEWHOPE_accept_computation P t d3.2 sp epp d3.1 pk a
  (ac.1,
   fun b =>
     if h : b.val < NEWHOPE_POLY_LENGTH then newhope_poly_tobytes ac.2.1 ⟨b.val, h⟩
     else encode_rec ac.2.2.1 ⟨b.val - NEWHOPE_POLY_LENGTH,
       by have hb : b.val < 2048 := b.isLt; show b.val - 1792 < 256; omega⟩,
   ac.2.2.2)

/-- `NEWHOPE_accept` (newhope.c lines 71-112): rejects a wrong-length offer
message (returning 0 and leaving the key and accept-message buffers and the
random tape untouched), otherwise runs the body and hashes the raw key into
the session key, returning 1. -/
def NEWHOPE_accept (P : NEWHOPE_Primitives) (t : RandTape) (s : RandPos)
    (key0 : Digest) (acceptmsg0 : AcceptMsg) (offermsg : OfferMsg) (msg_len : Nat) :
    Nat × Digest × AcceptMsg × RandPos :=
  if msg_len ≠ NEWHOPE_OFFERMSG_LENGTH then (0, key0, acceptmsg0, s)
  else
    let core := NEWHOPE_accept_core P t s offermsg
    (1, P.sha256 core.1, core.2.1, core.2.2)

/-- The raw key `NEWHOPE_finish` computes from its inputs (newhope.c lines
121-127): decode `bp` and the hint from the accept message and run
`NEWHOPE_finish_computation`. -/
def NEWHOPE_finish_raw (P : NEWHOPE_Primitives) (sk : NEWHOPE_POLY)
    (acceptmsg : AcceptMsg) : NewhopeKey :=
  NEWHOPE_finish_computation P sk
    (NEWHOPE_POLY_frombytes (fun b => acceptmsg ⟨b.val,
       by have hb : b.val < 1792 := b.isLt; show b.val < 2048; omega⟩))
    (decode_rec (fun i => acceptmsg ⟨NEWHOPE_POLY_LENGTH + i.val,
       by have hi : i.val < 256 := i.isLt; show 1792 + i.val < 2048; omega⟩))

/-- `NEWHOPE_finish` (newhope.c lines 114-136): rejects a wrong-length
accept message (returning 0 and leaving the key buffer and the random tape
untouched), otherwise decodes the message, reconciles, and hashes the raw
key into the session key, returning 1. -/
def NEWHOPE_finish (P : NEWHOPE_Primitives) (t : RandTape) (s : RandPos)
    (key0 : Digest) (sk : NEWHOPE_POLY) (acceptmsg : AcceptMsg) (msg_len : Nat) :
    Nat × Digest × RandPos :=
  if msg_len ≠ NEWHOPE_ACCEPTMSG_LENGTH then (0, key0, s)
  else (1, P.sha256 (NEWHOPE_finish_raw P sk acceptmsg), s)

/-- The seed `NEWHOPE_offer` embeds in the offer message: the 32-byte block
the run draws from the random-byte capability. -/
def offer_seed (t : RandTape) (s : RandPos) : Bytes32 := t.bytes s.bytesUsed

/-- The public ring element `pk = a*sk + e` computed inside `NEWHOPE_offer`,
re-derived from the tape so layout theorems can name it. -/
def offer_pk (P : NEWHOPE_Primitives) (t : RandTape) (s : RandPos) : NEWHOPE_POLY :=
  newhope_poly_add
    (P.ntt (newhope_poly_getnoise t (RAND_bytes t (newhope_poly_getnoise t s).2).2).1)
    (newhope_poly_pointwise (P.ntt (newhope_poly_getnoise t s).1)
      (P.uniform (offer_seed t s)))

/-- A concrete instantiation of the external primitives, used to witness the
orchestration theorems on explicit inputs. -/
def trivialPrimitives : NEWHOPE_Primitives where
  ntt := id
  invntt := id
  uniform := fun _ => fun _ => 1
  helprec := fun v _ => fun i => v i % 4
  reconcile := fun v c => fun i => ⟨(v ⟨8 * i.val, by have hi : i.val < 32 := i.isLt; show 8 * i.val < 1024; omega⟩ + c ⟨i.val, by have hi : i.val < 32 := i.isLt; show i.val < 1024; omega⟩) % 256, Nat.mod_lt _ (by omega)⟩
  sha256 := fun k => fun i => ⟨(2 * (k i).val + 1) % 256, Nat.mod_lt _ (by omega)⟩

/-- The all-zeros random tape, used by witnesses. -/
def zeroTape : RandTape := ⟨fun _ => fun _ => 0, fun _ => fun _ => 0⟩

/-- The all-zeros polynomial, used by witnesses. -/
def zeroPoly : NEWHOPE_POLY := fun _ => 0

/-- An all-zeros digest buffer, used by witnesses. -/
def zeroDigest : Digest := fun _ => 0

/-- An all-zeros accept-message buffer, used by witnesses. -/
def zeroAcceptMsg : AcceptMsg := fun _ => 0

/-- An all-zeros offer-message buffer, used by witnesses. -/
def zeroOfferMsg : OfferMsg := fun _ => 0

/-- A hint polynomial with all four 2-bit values represented, used by
witnesses. -/
def hintSample : NEWHOPE_POLY := fun j => j.val % 4

/-- A concrete packed-hint byte buffer, used by witnesses. -/
def recSampleBytes : Fin (PARAM_N / 4) → Byte := fun _ => ⟨27, by decide⟩

lemma coeff_fin (p : NEWHOPE_POLY) (j : Fin PARAM_N) : coeff p j.val = p j := by
  simp [coeff, j.isLt]

lemma coeff_lt_of_forall {p : NEWHOPE_POLY} {B : Nat} (hB : 0 < B)
    (hp : ∀ j, p j < B) (n : Nat) : coeff p n < B := by
  unfold coeff
  split
  · exact hp _
  · exact hB

lemma msgByte_lt {L : Nat} (m : Fin L → Byte) (n : Nat) : msgByte m n < 256 := by
  unfold msgByte
  split
  next h => exact (m ⟨n, h⟩).isLt
  next => omega

lemma msgByte_eq {L : Nat} (m : Fin L → Byte) (n : Nat) (h : n < L) :
    msgByte m n = (m ⟨n, h⟩).val := dif_pos h

lemma rec_byte_roundtrip : ∀ a b c d : Fin 4,
    (((a.val ||| (b.val <<< 2) ||| (c.val <<< 4) ||| (d.val <<< 6)) % 256) &&& 0x03 = a.val) ∧
    ((((a.val ||| (b.val <<< 2) ||| (c.val <<< 4) ||| (d.val <<< 6)) % 256) >>> 2) &&& 0x03 = b.val) ∧
    ((((a.val ||| (b.val <<< 2) ||| (c.val <<< 4) ||| (d.val <<< 6)) % 256) >>> 4) &&& 0x03 = c.val) ∧
    (((a.val ||| (b.val <<< 2) ||| (c.val <<< 4) ||| (d.val <<< 6)) % 256) >>> 6 = d.val) := by
  decide

lemma rec_byte_ext (a b c d : Nat) (ha : a < 4) (hb : b < 4) (hc : c < 4) (hd : d < 4) :
    (((a ||| (b <<< 2) ||| (c <<< 4) ||| (d <<< 6)) % 256) &&& 0x03 = a) ∧
    ((((a ||| (b <<< 2) ||| (c <<< 4) ||| (d <<< 6)) % 256) >>> 2) &&& 0x03 = b) ∧
    ((((a ||| (b <<< 2) ||| (c <<< 4) ||| (d <<< 6)) % 256) >>> 4) &&& 0x03 = c) ∧
    (((a ||| (b <<< 2) ||| (c <<< 4) ||| (d <<< 6)) % 256) >>> 6 = d) :=
  rec_byte_roundtrip ⟨a, ha⟩ ⟨b, hb⟩ ⟨c, hc⟩ ⟨d, hd⟩

lemma decode_encode_apply (c : NEWHOPE_POLY) (hc : ∀ j, c j < 4) (j : Fin PARAM_N) :
    decode_rec (encode_rec c) j = coeff c j.val := by
  have hj : j.val < 1024 := j.isLt
  have h4 : ∀ n, coeff c n < 4 := coeff_lt_of_forall (by omega) hc
  have key := rec_byte_ext (coeff c (4 * (j.val / 4))) (coeff c (4 * (j.val / 4) + 1))
      (coeff c (4 * (j.val / 4) + 2)) (coeff c (4 * (j.val / 4) + 3))
      (h4 _) (h4 _) (h4 _) (h4 _)
  have hdiv : j.val / 4 < 256 := by omega
  have hb : msgByte (encode_rec c) (j.val / 4) =
      (coeff c (4 * (j.val / 4)) ||| (coeff c (4 * (j.val / 4) + 1) <<< 2) |||
       (coeff c (4 * (j.val / 4) + 2) <<< 4) ||| (coeff c (4 * (j.val / 4) + 3) <<< 6)) % 256 := by
    rw [msgByte_eq _ _ (show j.val / 4 < PARAM_N / 4 from hdiv)]
    rfl
  simp only [decode_rec]
  rw [hb]
  rcases (show j.val % 4 = 0 ∨ j.val % 4 = 1 ∨ j.val % 4 = 2 ∨ j.val % 4 = 3 by omega)
    with h | h | h | h
  · have e : 4 * (j.val / 4) = j.val := by omega
    simp only [h]
    norm_num
    rw [e] at key ⊢
    exact key.1
  · have e : 4 * (j.val / 4) + 1 = j.val := by omega
    simp only [h]
    norm_num
    rw [e] at key ⊢
    exact key.2.1
  · have e : 4 * (j.val / 4) + 2 = j.val := by omega
    simp only [h]
    norm_num
    rw [e] at key ⊢
    exact key.2.2.1
  · have e : 4 * (j.val / 4) + 3 = j.val := by omega
    simp only [h]
    norm_num
    rw [e] at key ⊢
    exact key.2.2.2

/-- C5: for every reconciliation hint with all `N` values in `[0,4)`,
decoding the packed bytes produced from it yields it back exactly:
`decode_rec (encode_rec h) = h` coefficient-for-coefficient. -/
theorem NEWHOPE_rec_codec_roundtrip (c : NEWHOPE_POLY) (hc : ∀ j, c j < 4) :
    decode_rec (encode_rec c) = c := by
  funext j
  rw [decode_encode_apply c hc j, coeff_fin]

/-- Witness for C5 at the concrete hint `j ↦ j mod 4`. -/
theorem NEWHOPE_rec_codec_roundtrip_witness :
    decode_rec (encode_rec hintSample) = hintSample :=
  NEWHOPE_rec_codec_roundtrip hintSample (fun j => Nat.mod_lt _ (by decide))

/-- C9: any byte buffer of length `N/4` decodes to a polynomial whose
coefficients all lie in `[0,4)`: every wire byte sequence yields a
structurally valid 2-bit-per-coefficient hint. -/
theorem NEWHOPE_decode_rec_two_bit (r : Fin (PARAM_N / 4) → Byte) (j : Fin PARAM_N) :
    decode_rec r j < 4 := by
  have hm : msgByte r (j.val / 4) < 256 := msgByte_lt r _
  simp only [decode_rec]
  split_ifs
  · have := Nat.and_le_right (n := msgByte r (j.val / 4)) (m := 3)
    omega
  · have := Nat.and_le_right (n := msgByte r (j.val / 4) >>> 2) (m := 3)
    omega
  · have := Nat.and_le_right (n := msgByte r (j.val / 4) >>> 4) (m := 3)
    omega
  · rw [Nat.shiftRight_eq_div_pow]
    omega

/-- C6: the packed hint has `N/4` bytes (the codomain of `encode_rec`), byte
`i` holds hint values `4i..4i+3` in bit positions `[0,2)`, `[2,4)`, `[4,6)`,
`[6,8)` respectively, and `decode_rec` reads each coefficient back from
exactly those positions of byte `i`. -/
theorem NEWHOPE_rec_hint_layout (c : NEWHOPE_POLY) (hc : ∀ j, c j < 4)
    (i : Fin (PARAM_N / 4)) (r : Fin (PARAM_N / 4) → Byte) :
    ((encode_rec c i).val &&& 0x03 = coeff c (4 * i.val)) ∧
    (((encode_rec c i).val >>> 2) &&& 0x03 = coeff c (4 * i.val + 1)) ∧
    (((encode_rec c i).val >>> 4) &&& 0x03 = coeff c (4 * i.val + 2)) ∧
    ((encode_rec c i).val >>> 6 = coeff c (4 * i.val + 3)) ∧
    (decode_rec r ⟨4 * i.val,
        by have hi : i.val < 256 := i.isLt; show 4 * i.val < 1024; omega⟩ =
      msgByte r i.val &&& 0x03) ∧
    (decode_rec r ⟨4 * i.val + 1,
        by have hi : i.val < 256 := i.isLt; show 4 * i.val + 1 < 1024; omega⟩ =
      (msgByte r i.val >>> 2) &&& 0x03) ∧
    (decode_rec r ⟨4 * i.val + 2,
        by have hi : i.val < 256 := i.isLt; show 4 * i.val + 2 < 1024; omega⟩ =
      (msgByte r i.val >>> 4) &&& 0x03) ∧
    (decode_rec r ⟨4 * i.val + 3,
        by have hi : i.val < 256 := i.isLt; show 4 * i.val + 3 < 1024; omega⟩ =
      msgByte r i.val >>> 6) := by
  have h4 : ∀ n, coeff c n < 4 := coeff_lt_of_forall (by omega) hc
  have key := rec_byte_ext (coeff c (4 * i.val)) (coeff c (4 * i.val + 1))
      (coeff c (4 * i.val + 2)) (coeff c (4 * i.val + 3)) (h4 _) (h4 _) (h4 _) (h4 _)
  have henc : (encode_rec c i).val =
      (coeff c (4 * i.val) ||| (coeff c (4 * i.val + 1) <<< 2) |||
       (coeff c (4 * i.val + 2) <<< 4) ||| (coeff c (4 * i.val + 3) <<< 6)) % 256 := rfl
  have m0 : (4 * i.val) % 4 = 0 := by omega
  have m1 : (4 * i.val + 1) % 4 = 1 := by omega
  have m2 : (4 * i.val + 2) % 4 = 2 := by omega
  have m3 : (4 * i.val + 3) % 4 = 3 := by omega
  have d0 : (4 * i.val) / 4 = i.val := by omega
  have d1 : (4 * i.val + 1) / 4 = i.val := by omega
  have d2 : (4 * i.val + 2) / 4 = i.val := by omega
  have d3 : (4 * i.val + 3) / 4 = i.val := by omega
  refine ⟨?_, ?_, ?_, ?_, ?_, ?_, ?_, ?_⟩
  · rw [henc]; exact key.1
  · rw [henc]; exact key.2.1
  · rw [henc]; exact key.2.2.1
  · rw [henc]; exact key.2.2.2
  · simp [decode_rec, m0, d0]
  · simp [decode_rec, m1, d1]
  · simp [decode_rec, m2, d2]
  · simp [decode_rec, m3, d3]

/-- Witness for C6 at byte index 7 of a concrete hint and byte buffer. -/
theorem NEWHOPE_rec_hint_layout_witness :
    ((encode_rec hintSample ⟨7, by decide⟩).val &&& 0x03 = coeff hintSample 28) ∧
    (((encode_rec hintSample ⟨7, by decide⟩).val >>> 2) &&& 0x03 = coeff hintSample 29) ∧
    (((encode_rec hintSample ⟨7, by decide⟩).val >>> 4) &&& 0x03 = coeff hintSample 30) ∧
    ((encode_rec hintSample ⟨7, by decide⟩).val >>> 6 = coeff hintSample 31) ∧
    (decode_rec recSampleBytes ⟨28, by decide⟩ = msgByte recSampleBytes 7 &&& 0x03) ∧
    (decode_rec recSampleBytes ⟨29, by decide⟩ = (msgByte recSampleBytes 7 >>> 2) &&& 0x03) ∧
    (decode_rec recSampleBytes ⟨30, by decide⟩ = (msgByte recSampleBytes 7 >>> 4) &&& 0x03) ∧
    (decode_rec recSampleBytes ⟨31, by decide⟩ = msgByte recSampleBytes 7 >>> 6) :=
  NEWHOPE_rec_hint_layout hintSample (fun j => Nat.mod_lt _ (by decide))
    ⟨7, by decide⟩ recSampleBytes

lemma poly_group_lt (p : NEWHOPE_POLY) (hp : ∀ i, p i < PARAM_Q) (g : Nat) :
    poly_group p g < 72057594037927936 := by
  have h0 : coeff p (4 * g) < 12289 := coeff_lt_of_forall (by decide) hp _
  have h1 : coeff p (4 * g + 1) < 12289 := coeff_lt_of_forall (by decide) hp _
  have h2 : coeff p (4 * g + 2) < 12289 := coeff_lt_of_forall (by decide) hp _
  have h3 : coeff p (4 * g + 3) < 12289 := coeff_lt_of_forall (by decide) hp _
  unfold poly_group
  omega

lemma bytes_group_tobytes (p : NEWHOPE_POLY) (hp : ∀ i, p i < PARAM_Q)
    (g : Nat) (hg : g < 256) :
    bytes_group (newhope_poly_tobytes p) g = poly_group p g := by
  have hv := poly_group_lt p hp g
  have e0 : msgByte (newhope_poly_tobytes p) (7 * g) =
      poly_group p g / 281474976710656 % 256 := by
    rw [msgByte_eq _ _ (show 7 * g < NEWHOPE_POLY_LENGTH from show 7 * g < 1792 by omega)]
    simp [newhope_poly_tobytes, show (7 * g) % 7 = 0 from by omega,
      show (7 * g) / 7 = g from by omega]
  have e1 : msgByte (newhope_poly_tobytes p) (7 * g + 1) =
      poly_group p g / 1099511627776 % 256 := by
    rw [msgByte_eq _ _ (show 7 * g + 1 < NEWHOPE_POLY_LENGTH from show 7 * g + 1 < 1792 by omega)]
    simp [newhope_poly_tobytes, show (7 * g + 1) % 7 = 1 from by omega,
      show (7 * g + 1) / 7 = g from by omega]
  have e2 : msgByte (newhope_poly_tobytes p) (7 * g + 2) =
      poly_group p g / 4294967296 % 256 := by
    rw [msgByte_eq _ _ (show 7 * g + 2 < NEWHOPE_POLY_LENGTH from show 7 * g + 2 < 1792 by omega)]
    simp [newhope_poly_tobytes, show (7 * g + 2) % 7 = 2 from by omega,
      show (7 * g + 2) / 7 = g from by omega]
  have e3 : msgByte (newhope_poly_tobytes p) (7 * g + 3) =
      poly_group p g / 16777216 % 256 := by
    rw [msgByte_eq _ _ (show 7 * g + 3 < NEWHOPE_POLY_LENGTH from show 7 * g + 3 < 1792 by omega)]
    simp [newhope_poly_tobytes, show (7 * g + 3) % 7 = 3 from by omega,
      show (7 * g + 3) / 7 = g from by omega]
  have e4 : msgByte (newhope_poly_tobytes p) (7 * g + 4) =
      poly_group p g / 65536 % 256 := by
    rw [msgByte_eq _ _ (show 7 * g + 4 < NEWHOPE_POLY_LENGTH from show 7 * g + 4 < 1792 by omega)]
    simp [newhope_poly_tobytes, show (7 * g + 4) % 7 = 4 from by omega,
      show (7 * g + 4) / 7 = g from by omega]
  have e5 : msgByte (newhope_poly_tobytes p) (7 * g + 5) =
      poly_group p g / 256 % 256 := by
    rw [msgByte_eq _ _ (show 7 * g + 5 < NEWHOPE_POLY_LENGTH from show 7 * g + 5 < 1792 by omega)]
    simp [newhope_poly_tobytes, show (7 * g + 5) % 7 = 5 from by omega,
      show (7 * g + 5) / 7 = g from by omega]
  have e6 : msgByte (newhope_poly_tobytes p) (7 * g + 6) =
      poly_group p g % 256 := by
    rw [msgByte_eq _ _ (show 7 * g + 6 < NEWHOPE_POLY_LENGTH from show 7 * g + 6 < 1792 by omega)]
    simp [newhope_poly_tobytes, show (7 * g + 6) % 7 = 6 from by omega,
      show (7 * g + 6) / 7 = g from by omega]
  unfold bytes_group
  rw [e0, e1, e2, e3, e4, e5, e6]
  omega

/-- Round-trip of the ring-element codec: deserializing a serialized ring
element with coefficients in `[0, Q)` returns it exactly. -/
lemma poly_codec_roundtrip (p : NEWHOPE_POLY) (hp : ∀ i, p i < PARAM_Q) :
    NEWHOPE_POLY_frombytes (newhope_poly_tobytes p) = p := by
  funext j
  have hj : j.val < 1024 := j.isLt
  have hg : j.val / 4 < 256 := by omega
  have hbg := bytes_group_tobytes p hp (j.val / 4) hg
  have h0 : coeff p (4 * (j.val / 4)) < 12289 := coeff_lt_of_forall (by decide) hp _
  have h1 : coeff p (4 * (j.val / 4) + 1) < 12289 := coeff_lt_of_forall (by decide) hp _
  have h2 : coeff p (4 * (j.val / 4) + 2) < 12289 := coeff_lt_of_forall (by decide) hp _
  have h3 : coeff p (4 * (j.val / 4) + 3) < 12289 := coeff_lt_of_forall (by decide) hp _
  simp only [NEWHOPE_POLY_frombytes]
  rw [hbg, ← coeff_fin p j]
  rcases (show j.val % 4 = 0 ∨ j.val % 4 = 1 ∨ j.val % 4 = 2 ∨ j.val % 4 = 3 by omega)
    with h | h | h | h
  · simp only [h]
    norm_num
    conv_rhs => rw [show j.val = 4 * (j.val / 4) from by omega]
    unfold poly_group
    omega
  · simp only [h]
    norm_num
    conv_rhs => rw [show j.val = 4 * (j.val / 4) + 1 from by omega]
    unfold poly_group
    omega
  · simp only [h]
    norm_num
    conv_rhs => rw [show j.val = 4 * (j.val / 4) + 2 from by omega]
    unfold poly_group
    omega
  · simp only [h]
    norm_num
    conv_rhs => rw [show j.val = 4 * (j.val / 4) + 3 from by omega]
    unfold poly_group
    omega

lemma newhope_poly_add_lt (a b : NEWHOPE_POLY) (i : Fin PARAM_N) :
    newhope_poly_add a b i < PARAM_Q := Nat.mod_lt _ (by decide)


lemma NEWHOPE_offer_msg_apply (P : NEWHOPE_Primitives) (t : RandTape) (s : RandPos)
    (b : Fin NEWHOPE_OFFERMSG_LENGTH) :
    (NEWHOPE_offer P t s).1 b =
      if h : b.val < NEWHOPE_POLY_LENGTH then
        newhope_poly_tobytes (offer_pk P t s) ⟨b.val, h⟩
      else offer_seed t s ⟨b.val - NEWHOPE_POLY_LENGTH,
        by have hb : b.val < 1824 := b.isLt; show b.val - 1792 < 32; omega⟩ := rfl

/-- C7: the offer message is the packed ring element `pk = a*sk + e` in its
first `NEWHOPE_POLY_LENGTH` bytes followed by the 32-byte seed, and
`NEWHOPE_accept` reads the seed from offset `NEWHOPE_POLY_LENGTH` and the
packed ring element from offset 0, recovering exactly that seed and `pk`. -/
theorem NEWHOPE_offer_message_layout (P : NEWHOPE_Primitives) (t : RandTape) (s : RandPos) :
    (∀ b : Fin NEWHOPE_POLY_LENGTH,
      (NEWHOPE_offer P t s).1 ⟨b.val,
          by have hb : b.val < 1792 := b.isLt; show b.val < 1824; omega⟩ =
        newhope_poly_tobytes (offer_pk P t s) b) ∧
    (∀ i : Fin SEED_LENGTH,
      (NEWHOPE_offer P t s).1 ⟨NEWHOPE_POLY_LENGTH + i.val,
          by have hi : i.val < 32 := i.isLt; show 1792 + i.val < 1824; omega⟩ =
        offer_seed t s i) ∧
    NEWHOPE_accept_parse (NEWHOPE_offer P t s).1 = (offer_seed t s, offer_pk P t s) := by
  have hpoly : ∀ b : Fin NEWHOPE_POLY_LENGTH,
      (NEWHOPE_offer P t s).1 ⟨b.val,
          by have hb : b.val < 1792 := b.isLt; show b.val < 1824; omega⟩ =
        newhope_poly_tobytes (offer_pk P t s) b := by
    intro b
    rw [NEWHOPE_offer_msg_apply]
    dsimp only
    rw [dif_pos b.isLt]
  have hseed : ∀ i : Fin SEED_LENGTH,
      (NEWHOPE_offer P t s).1 ⟨NEWHOPE_POLY_LENGTH + i.val,
          by have hi : i.val < 32 := i.isLt; show 1792 + i.val < 1824; omega⟩ =
        offer_seed t s i := by
    intro i
    rw [NEWHOPE_offer_msg_apply]
    dsimp only
    rw [dif_neg (show ¬(NEWHOPE_POLY_LENGTH + i.val < NEWHOPE_POLY_LENGTH) from by omega)]
    refine congrArg (offer_seed t s) (Fin.ext ?_)
    show NEWHOPE_POLY_LENGTH + i.val - NEWHOPE_POLY_LENGTH = i.val
    omega
  refine ⟨hpoly, hseed, ?_⟩
  rw [Prod.ext_iff]
  constructor
  · funext i
    exact hseed i
  · show NEWHOPE_POLY_frombytes _ = offer_pk P t s
    have harg : (fun b : Fin NEWHOPE_POLY_LENGTH =>
        (NEWHOPE_offer P t s).1 ⟨b.val,
          by have hb : b.val < 1792 := b.isLt; show b.val < 1824; omega⟩) =
        newhope_poly_tobytes (offer_pk P t s) := funext fun b => hpoly b
    rw [harg]
    exact poly_codec_roundtrip _ (fun i => newhope_poly_add_lt _ _ i)

/-- C2: `NEWHOPE_accept` succeeds (returns 1) exactly when `msg_len` equals
`NEWHOPE_OFFERMSG_LENGTH` and fails (returns 0) exactly otherwise, and
`NEWHOPE_finish` succeeds exactly when `msg_len` equals
`NEWHOPE_ACCEPTMSG_LENGTH` and fails exactly otherwise. -/
theorem NEWHOPE_length_check_iff (P : NEWHOPE_Primitives) (t : RandTape) (s : RandPos)
    (key0 : Digest) (acceptmsg0 : AcceptMsg) (offermsg : OfferMsg)
    (key1 : Digest) (sk : NEWHOPE_POLY) (acceptmsg : AcceptMsg) (la lf : Nat) :
    ((NEWHOPE_accept P t s key0 acceptmsg0 offermsg la).1 = 1 ↔
        la = NEWHOPE_OFFERMSG_LENGTH) ∧
    ((NEWHOPE_accept P t s key0 acceptmsg0 offermsg la).1 = 0 ↔
        la ≠ NEWHOPE_OFFERMSG_LENGTH) ∧
    ((NEWHOPE_finish P t s key1 sk acceptmsg lf).1 = 1 ↔
        lf = NEWHOPE_ACCEPTMSG_LENGTH) ∧
    ((NEWHOPE_finish P t s key1 sk acceptmsg lf).1 = 0 ↔
        lf ≠ NEWHOPE_ACCEPTMSG_LENGTH) := by
  unfold NEWHOPE_accept NEWHOPE_finish
  by_cases ha : la = NEWHOPE_OFFERMSG_LENGTH <;>
    by_cases hf : lf = NEWHOPE_ACCEPTMSG_LENGTH <;>
      simp [ha, hf]

/-- C8: on a wrong-length message the operation returns failure with no
partial processing: the key buffer, the accept-message buffer and the random
tape position are returned exactly as given. -/
theorem NEWHOPE_length_mismatch_no_effect (P : NEWHOPE_Primitives) (t : RandTape)
    (s : RandPos) (key0 : Digest) (acceptmsg0 : AcceptMsg) (offermsg : OfferMsg)
    (key1 : Digest) (sk : NEWHOPE_POLY) (acceptmsg : AcceptMsg) (la lf : Nat)
    (ha : la ≠ NEWHOPE_OFFERMSG_LENGTH) (hf : lf ≠ NEWHOPE_ACCEPTMSG_LENGTH) :
    NEWHOPE_accept P t s key0 acceptmsg0 offermsg la = (0, key0, acceptmsg0, s) ∧
    NEWHOPE_finish P t s key1 sk acceptmsg lf = (0, key1, s) := by
  constructor
  · unfold NEWHOPE_accept
    rw [if_pos ha]
  · unfold NEWHOPE_finish
    rw [if_pos hf]

/-- Witness for C8: a one-byte-short offer message and a one-byte-long
accept message are rejected without touching the buffers or the tape. -/
theorem NEWHOPE_length_mismatch_no_effect_witness :
    NEWHOPE_accept trivialPrimitives zeroTape ⟨0, 0⟩ zeroDigest zeroAcceptMsg
        zeroOfferMsg 1823 = (0, zeroDigest, zeroAcceptMsg, ⟨0, 0⟩) ∧
    NEWHOPE_finish trivialPrimitives zeroTape ⟨0, 0⟩ zeroDigest zeroPoly
        zeroAcceptMsg 2049 = (0, zeroDigest, ⟨0, 0⟩) :=
  NEWHOPE_length_mismatch_no_effect trivialPrimitives zeroTape ⟨0, 0⟩ zeroDigest
    zeroAcceptMsg zeroOfferMsg zeroDigest zeroPoly zeroAcceptMsg 1823 2049
    (by decide) (by decide)

/-- C10: `NEWHOPE_finish` is a pure function of the secret key and the
accept message: two runs on different tapes and tape positions return the
same status and session key, and each run returns its tape position
unchanged (no randomness is consumed). -/
theorem NEWHOPE_finish_deterministic (P : NEWHOPE_Primitives) (t1 t2 : RandTape)
    (s1 s2 : RandPos) (key0 : Digest) (sk : NEWHOPE_POLY) (acceptmsg : AcceptMsg)
    (msg_len : Nat) :
    ((NEWHOPE_finish P t1 s1 key0 sk acceptmsg msg_len).1 =
      (NEWHOPE_finish P t2 s2 key0 sk acceptmsg msg_len).1) ∧
    ((NEWHOPE_finish P t1 s1 key0 sk acceptmsg msg_len).2.1 =
      (NEWHOPE_finish P t2 s2 key0 sk acceptmsg msg_len).2.1) ∧
    ((NEWHOPE_finish P t1 s1 key0 sk acceptmsg msg_len).2.2 = s1) ∧
    ((NEWHOPE_finish P t2 s2 key0 sk acceptmsg msg_len).2.2 = s2) := by
  unfold NEWHOPE_finish
  by_cases h : msg_len ≠ NEWHOPE_ACCEPTMSG_LENGTH <;> simp [h]

/-- C3: `NEWHOPE_accept_computation` produces `bp = a*sp + ep` (NTT-domain
pointwise multiply then add, with `ep` the freshly sampled transformed
noise), `v = invntt(pk*sp) + epp`, and derives the hint by
help-reconciliation on that `v` and the raw key by reconciling that same
`v` with that hint. -/
theorem NEWHOPE_accept_computation_spec (P : NEWHOPE_Primitives) (t : RandTape)
    (s : RandPos) (sp epp : NEWHOPE_POLY) (rand : Bytes32) (pk a : NEWHOPE_POLY) :
    ((NEWHOPE_accept_computation P t s sp epp rand pk a).2.1 =
        newhope_poly_add (newhope_poly_pointwise a sp)
          (P.ntt (newhope_poly_getnoise t s).1)) ∧
    ((NEWHOPE_accept_computation P t s sp epp rand pk a).2.2.1 =
        P.helprec (newhope_poly_add (P.invntt (newhope_poly_pointwise pk sp)) epp)
          rand) ∧
    ((NEWHOPE_accept_computation P t s sp epp rand pk a).1 =
        P.reconcile (newhope_poly_add (P.invntt (newhope_poly_pointwise pk sp)) epp)
          ((NEWHOPE_accept_computation P t s sp epp rand pk a).2.2.1)) :=
  ⟨rfl, rfl, rfl⟩

/-- C4: on a correct-length accept message, `NEWHOPE_finish` decodes `bp`
from the first `NEWHOPE_POLY_LENGTH` bytes and the hint from the rest,
computes `v = invntt(sk * bp)`, reconciles `v` with the hint, and returns
status 1 with the hash of that raw secret as the session key, consuming no
randomness. -/
theorem NEWHOPE_finish_spec (P : NEWHOPE_Primitives) (t : RandTape) (s : RandPos)
    (key0 : Digest) (sk : NEWHOPE_POLY) (acceptmsg : AcceptMsg) :
    NEWHOPE_finish P t s key0 sk acceptmsg NEWHOPE_ACCEPTMSG_LENGTH =
      (1, P.sha256 (P.reconcile
          (P.invntt (newhope_poly_pointwise sk (NEWHOPE_POLY_frombytes (fun b =>
            acceptmsg ⟨b.val,
              by have hb : b.val < 1792 := b.isLt; show b.val < 2048; omega⟩))))
          (decode_rec (fun i => acceptmsg ⟨NEWHOPE_POLY_LENGTH + i.val,
            by have hi : i.val < 256 := i.isLt; show 1792 + i.val < 2048; omega⟩))),
       s) := by
  unfold NEWHOPE_finish
  rw [if_neg (show ¬(NEWHOPE_ACCEPTMSG_LENGTH ≠ NEWHOPE_ACCEPTMSG_LENGTH) from by simp)]
  rfl

/-- C1: wiring the offer message into `NEWHOPE_accept` and the resulting
accept message plus the offer's secret key into `NEWHOPE_finish`, both
length checks pass, and whenever the reconciliation step recovers the same
raw secret bits on both sides (the responder's raw key from
`NEWHOPE_accept_core` and the initiator's from `NEWHOPE_finish_raw`), both
parties derive the identical 32-byte session key. -/
theorem NEWHOPE_handshake_agreement (P : NEWHOPE_Primitives) (t t2 t3 : RandTape)
    (s s2 s3 : RandPos) (key0 : Digest) (acceptmsg0 : AcceptMsg) (key1 : Digest)
    (hbits : NEWHOPE_finish_raw P (NEWHOPE_offer P t s).2.1
        (NEWHOPE_accept_core P t2 s2 (NEWHOPE_offer P t s).1).2.1 =
      (NEWHOPE_accept_core P t2 s2 (NEWHOPE_offer P t s).1).1) :
    ((NEWHOPE_accept P t2 s2 key0 acceptmsg0 (NEWHOPE_offer P t s).1
        NEWHOPE_OFFERMSG_LENGTH).1 = 1) ∧
    ((NEWHOPE_finish P t3 s3 key1 (NEWHOPE_offer P t s).2.1
        (NEWHOPE_accept P t2 s2 key0 acceptmsg0 (NEWHOPE_offer P t s).1
          NEWHOPE_OFFERMSG_LENGTH).2.2.1 NEWHOPE_ACCEPTMSG_LENGTH).1 = 1) ∧
    ((NEWHOPE_finish P t3 s3 key1 (NEWHOPE_offer P t s).2.1
        (NEWHOPE_accept P t2 s2 key0 acceptmsg0 (NEWHOPE_offer P t s).1
          NEWHOPE_OFFERMSG_LENGTH).2.2.1 NEWHOPE_ACCEPTMSG_LENGTH).2.1 =
      (NEWHOPE_accept P t2 s2 key0 acceptmsg0 (NEWHOPE_offer P t s).1
        NEWHOPE_OFFERMSG_LENGTH).2.1) := by
  have hacc : NEWHOPE_accept P t2 s2 key0 acceptmsg0 (NEWHOPE_offer P t s).1
      NEWHOPE_OFFERMSG_LENGTH =
      (1, P.sha256 (NEWHOPE_accept_core P t2 s2 (NEWHOPE_offer P t s).1).1,
       (NEWHOPE_accept_core P t2 s2 (NEWHOPE_offer P t s).1).2.1,
       (NEWHOPE_accept_core P t2 s2 (NEWHOPE_offer P t s).1).2.2) := by
    unfold NEWHOPE_accept
    rw [if_neg (show ¬(NEWHOPE_OFFERMSG_LENGTH ≠ NEWHOPE_OFFERMSG_LENGTH) from by simp)]
  have hfin : ∀ am : AcceptMsg,
      NEWHOPE_finish P t3 s3 key1 (NEWHOPE_offer P t s).2.1 am
        NEWHOPE_ACCEPTMSG_LENGTH =
      (1, P.sha256 (NEWHOPE_finish_raw P (NEWHOPE_offer P t s).2.1 am), s3) := by
    intro am
    unfold NEWHOPE_finish
    rw [if_neg (show ¬(NEWHOPE_ACCEPTMSG_LENGTH ≠ NEWHOPE_ACCEPTMSG_LENGTH) from by simp)]
  refine ⟨by rw [hacc], ?_, ?_⟩
  · rw [hacc, hfin]
  · rw [hacc, hfin]
    dsimp only
    exact congrArg P.sha256 hbits

/-- Witness for C1: the full offer/accept/finish run on the all-zeros tape
with the concrete primitives, where reconciliation recovers the same raw
bits on both sides and the session keys coincide. -/
theorem NEWHOPE_handshake_agreement_witness :
    ((NEWHOPE_accept trivialPrimitives zeroTape ⟨0, 0⟩ zeroDigest zeroAcceptMsg
        (NEWHOPE_offer trivialPrimitives zeroTape ⟨0, 0⟩).1
        NEWHOPE_OFFERMSG_LENGTH).1 = 1) ∧
    ((NEWHOPE_finish trivialPrimitives zeroTape ⟨0, 0⟩ zeroDigest
        (NEWHOPE_offer trivialPrimitives zeroTape ⟨0, 0⟩).2.1
        (NEWHOPE_accept trivialPrimitives zeroTape ⟨0, 0⟩ zeroDigest zeroAcceptMsg
          (NEWHOPE_offer trivialPrimitives zeroTape ⟨0, 0⟩).1
          NEWHOPE_OFFERMSG_LENGTH).2.2.1 NEWHOPE_ACCEPTMSG_LENGTH).1 = 1) ∧
    ((NEWHOPE_finish trivialPrimitives zeroTape ⟨0, 0⟩ zeroDigest
        (NEWHOPE_offer trivialPrimitives zeroTape ⟨0, 0⟩).2.1
        (NEWHOPE_accept trivialPrimitives zeroTape ⟨0, 0⟩ zeroDigest zeroAcceptMsg
          (NEWHOPE_offer trivialPrimitives zeroTape ⟨0, 0⟩).1
          NEWHOPE_OFFERMSG_LENGTH).2.2.1 NEWHOPE_ACCEPTMSG_LENGTH).2.1 =
      (NEWHOPE_accept trivialPrimitives zeroTape ⟨0, 0⟩ zeroDigest zeroAcceptMsg
        (NEWHOPE_offer trivialPrimitives zeroTape ⟨0, 0⟩).1
        NEWHOPE_OFFERMSG_LENGTH).2.1) :=
  NEWHOPE_handshake_agreement trivialPrimitives zeroTape zeroTape zeroTape
    ⟨0, 0⟩ ⟨0, 0⟩ ⟨0, 0⟩ zeroDigest zeroAcceptMsg zeroDigest (by decide)
